import Mathlib

/-!
Verification development for an event-driven pairs-trading backtesting engine
(`event.py`, `data_handler.py`, `strategy.py`, `portfolio.py`, `execution.py`,
`backtest.py`).

The embedding is exact-arithmetic: Python floats become rationals (`ℚ`),
Python ints become `ℤ`/`ℕ`, timestamps (pandas index labels) become `ℕ`,
dictionaries keyed by symbol become association lists or total functions.
The cointegration test (`statsmodels.tsa.stattools.coint`) is external
statistics and is modelled as an oracle parameter returning the p-value.

The one real-vs-rational subtlety is the z-score
`z = (current_spread - spread_mean) / spread_std` with
`spread_std = sqrt(spread_var)`: the square root is irrational in general,
so the three threshold comparisons the strategy makes are embedded as
exact sign-and-square comparisons that are equivalent over the reals:
for `v > 0` and `d = current_spread - spread_mean`,
  `z > 2    ↔ d > 2·√v   ↔ d > 0 ∧ d² > 4·v`
  `z < -2   ↔ d < -2·√v  ↔ d < 0 ∧ d² > 4·v`
  `|z| < ½  ↔ |d| < √v/2 ↔ 4·d² < v`.
When `v = 0` all spread values are equal, hence `d = 0` and the float code
computes `z = 0.0/0.0 = NaN`; every comparison against NaN is false, which
the embedding renders as a `v ≠ 0` conjunct in each guard.
-/

namespace Backtest

/-! ## Events (event.py) -/

/-- Signal directions carried by a `SignalEvent` (`signal_type` in event.py). -/
inductive SignalType
  | LONG
  | SHORT
  | EXIT
deriving DecidableEq

/-- Order / fill sides (`direction` in event.py): `'BUY'` or `'SELL'`. -/
inductive Side
  | BUY
  | SELL
deriving DecidableEq

/-- One row of a symbol's price series: the pandas row label (`.name`, a
timestamp, embedded as `ℕ`) and the `'Close'` field (the only OHLCV field
the engine ever reads). -/
structure Bar where
  name : ℕ
  close : ℚ
deriving DecidableEq

/-- The tagged event union of event.py: `MarketEvent`, `SignalEvent`,
`OrderEvent`, `FillEvent`, with exactly the payload fields of the source. -/
inductive Event
  | market
  | signal (symbol : String) (datetime : ℕ) (signal_type : SignalType) (strength : ℚ)
  | order (symbol : String) (order_type : String) (quantity : ℤ) (direction : Side)
  | fill (timeindex : ℕ) (symbol : String) (exchange : String) (quantity : ℤ)
      (direction : Side) (fill_cost : ℚ) (commission : ℚ)
deriving DecidableEq

/-- The `event.type` string tag each handler checks before acting. -/
def eventType : Event → String
  | .market => "MARKET"
  | .signal _ _ _ _ => "SIGNAL"
  | .order _ _ _ _ => "ORDER"
  | .fill _ _ _ _ _ _ _ => "FILL"

/-! ## Association-list lookup

Python dictionaries keyed by symbol (`latest_symbol_data`, `symbol_data`)
are embedded as association lists; `alookup` is `dict[key]` returning
`none` where Python raises `KeyError`. -/

def alookup {α : Type} : List (String × α) → String → Option α
  | [], _ => none
  | (k, v) :: rest, s => if s = k then some v else alookup rest s

/-! ## Spread statistics (strategy.py lines 33-37)

`np.mean`, `np.std` (population), `spread[-1]`, embedded over `ℚ`.
`pvarQ` is the population variance (the square of `np.std`). -/

/-- `np.mean(spread)`. (In `ℚ`, `sum / 0 = 0` for the empty list; the code
only evaluates this on windows of length `lookback ≥ 1`.) -/
def meanQ (l : List ℚ) : ℚ := l.sum / l.length

/-- Population variance, the square of `np.std(spread)`. -/
def pvarQ (l : List ℚ) : ℚ := (l.map (fun x => (x - meanQ l) ^ 2)).sum / l.length

/-- `spread[-1]`, the most recent spread value. -/
def lastQ (l : List ℚ) : ℚ := l.getLast?.getD 0

/-- `z_score > 2.0` rendered exactly: `d = current_spread - spread_mean`,
`v = spread_var`; over the reals `d/√v > 2 ↔ d > 0 ∧ d² > 4·v` when `v > 0`,
and when `v = 0` the float z-score is NaN (all spread values coincide, so
`d = 0` and `z = 0.0/0.0`), making the comparison false. -/
def zAbove (d v : ℚ) : Prop := v ≠ 0 ∧ 0 < d ∧ 4 * v < d ^ 2

/-- `z_score < -2.0` rendered exactly (see `zAbove`). -/
def zBelow (d v : ℚ) : Prop := v ≠ 0 ∧ d < 0 ∧ 4 * v < d ^ 2

/-- `abs(z_score) < 0.5` rendered exactly: `|d|/√v < 1/2 ↔ 4·d² < v` for
`v > 0`; false when `v = 0` (NaN comparison). -/
def zSmall (d v : ℚ) : Prop := v ≠ 0 ∧ 4 * d ^ 2 < v

instance (d v : ℚ) : Decidable (zAbove d v) :=
  inferInstanceAs (Decidable (v ≠ 0 ∧ 0 < d ∧ 4 * v < d ^ 2))

instance (d v : ℚ) : Decidable (zBelow d v) :=
  inferInstanceAs (Decidable (v ≠ 0 ∧ d < 0 ∧ 4 * v < d ^ 2))

instance (d v : ℚ) : Decidable (zSmall d v) :=
  inferInstanceAs (Decidable (v ≠ 0 ∧ 4 * d ^ 2 < v))

/-! ## Strategy (strategy.py, `PairsTradingStrategy`) -/

/-- `_get_recent_data(symbol)`: look up the symbol's latest bar (KeyError →
`none`), find the position of its label in the symbol's full series
(`index.get_loc`, KeyError → `none`), and return
`iloc[max(0, i - lookback + 1) : i + 1]` (ℕ subtraction supplies the
`max(0, ·)`). -/
def getRecentData (symbol_data : List (String × List Bar)) (latest : List (String × Bar))
    (lookback : ℕ) (symbol : String) : Option (List Bar) :=
  match alookup latest symbol, alookup symbol_data symbol with
  | some b, some sd =>
    match sd.findIdx? (fun r => r.name = b.name) with
    | some i => some ((sd.drop (i + 1 - lookback)).take (i + 1 - (i + 1 - lookback)))
    | none => none
  | _, _ => none

/-- The `'Close'` column of a window. -/
def closes (df : List Bar) : List ℚ := df.map Bar.close

/-- `spread = df1['Close'].values - df2['Close'].values`. -/
def spreadOf (df1 df2 : List Bar) : List ℚ :=
  List.zipWith (fun a b => a - b) (closes df1) (closes df2)

/-- `current_spread - spread_mean` for the spread of two windows. -/
def spreadD (df1 df2 : List Bar) : ℚ :=
  lastQ (spreadOf df1 df2) - meanQ (spreadOf df1 df2)

/-- The latest bar's label for a symbol
(`self.bars.latest_symbol_data[symbol].name`); only evaluated when the
symbol is present in `latest`. -/
def dtOf (latest : List (String × Bar)) (symbol : String) : ℕ :=
  ((alookup latest symbol).map Bar.name).getD 0

/-- The three-way `if / elif / elif` trading logic of
`calculate_signals` (strategy.py lines 33-45), given the configured pair,
their current timestamps, the invested flag and the exact z-score data
`d = current_spread - spread_mean`, `v = spread_var`. Returns the new
invested flag and the emitted signals in emission order. -/
def tradeSignals (s1 s2 : String) (d1 d2 : ℕ) (invested : Bool) (d v : ℚ) :
    Bool × List Event :=
  if invested = false ∧ zAbove d v then
    (true, [.signal s1 d1 .SHORT 1, .signal s2 d2 .LONG 1])
  else if invested = false ∧ zBelow d v then
    (true, [.signal s1 d1 .LONG 1, .signal s2 d2 .SHORT 1])
  else if invested = true ∧ zSmall d v then
    (false, [.signal s1 d1 .EXIT 1, .signal s2 d2 .EXIT 1])
  else (invested, [])

/-- `PairsTradingStrategy.calculate_signals(event)`: guarded on
`event.type == 'MARKET'`; pulls both lookback windows, requires both to have
at least `lookback` rows, consults the cointegration p-value oracle
(`coint(df1['Close'], df2['Close'])`, threshold `0.05 = 1/20`), computes the
spread statistics and applies `tradeSignals`. Returns the new invested flag
together with the signals put on the queue, in order. -/
def calculate_signals (pvalue : List ℚ → List ℚ → ℚ) (pair : String × String)
    (lookback : ℕ) (symbol_data : List (String × List Bar))
    (latest : List (String × Bar)) (invested : Bool) (event : Event) :
    Bool × List Event :=
  match event with
  | .market =>
    match getRecentData symbol_data latest lookback pair.1,
          getRecentData symbol_data latest lookback pair.2 with
    | some df1, some df2 =>
      if lookback ≤ df1.length ∧ lookback ≤ df2.length then
        if pvalue (closes df1) (closes df2) < 1 / 20 then
          tradeSignals pair.1 pair.2 (dtOf latest pair.1) (dtOf latest pair.2)
            invested (spreadD df1 df2) (pvarQ (spreadOf df1 df2))
        else (invested, [])
      else (invested, [])
    | _, _ => (invested, [])
  | _ => (invested, [])

/-! ## Portfolio (portfolio.py, `Portfolio`) -/

/-- One entry of `all_positions`: a copy of `current_positions` stamped with
the reference symbol's latest timestamp (the initial entry made by
`__init__` has no `'datetime'` key, hence `Option`). -/
structure PositionsSnapshot where
  positions : String → ℤ
  datetime : Option ℕ

/-- One entry of `all_holdings`: per-symbol market value, cash, cumulative
commission, total equity and timestamp (`none` for the initial entry). -/
structure HoldingsSnapshot where
  values : String → ℚ
  cash : ℚ
  commission : ℚ
  total : ℚ
  datetime : Option ℕ

/-- The mutable portfolio state: `current_positions`, the cash and
cumulative-commission entries of `current_holdings` (its per-symbol and
`'total'` entries are never read after construction), and the two
append-only snapshot lists. `current_positions` is embedded as a total map;
the Python dict holds exactly the configured symbols, and every fill the
engine produces is for a configured symbol. -/
structure PortfolioState where
  current_positions : String → ℤ
  cash : ℚ
  commission : ℚ
  all_positions : List PositionsSnapshot
  all_holdings : List HoldingsSnapshot

/-- `Portfolio.__init__` / `_construct_initial_holdings`: zero positions,
`cash = total = initial_capital`, `commission = 0`, and one initial entry
appended to each snapshot list. -/
def initialPortfolio (initial_capital : ℚ) : PortfolioState :=
  { current_positions := fun _ => 0
    cash := initial_capital
    commission := 0
    all_positions := [{ positions := fun _ => 0, datetime := none }]
    all_holdings := [{ values := fun _ => 0, cash := initial_capital,
                       commission := 0, total := initial_capital, datetime := none }] }

/-- The per-symbol term of the holdings market value: `position × Close` for
a symbol present in `latest_symbol_data`, and `0` (the symbol is skipped by
the loop) otherwise. -/
def holdingsValue (latest : List (String × Bar)) (pos : String → ℤ) (s : String) : ℚ :=
  match alookup latest s with
  | some b => (pos s : ℚ) * b.close
  | none => 0

/-- `Portfolio.update_timeindex(event)`: guarded on `'MARKET'`; appends a
positions snapshot (copy of `current_positions`) and a holdings snapshot
whose per-symbol values use the latest Close for symbols present this step
and `0.0` otherwise, with `total = cash + market_value`, both stamped with
`latest_symbol_data[symbol_list[0]].name`. -/
def update_timeindex (symbol_list : List String) (latest : List (String × Bar))
    (p : PortfolioState) (event : Event) : PortfolioState :=
  match event with
  | .market =>
    let latest_datetime := (symbol_list.head?.bind (alookup latest)).map Bar.name
    let dp : PositionsSnapshot :=
      { positions := p.current_positions, datetime := latest_datetime }
    let market_value := (symbol_list.map (holdingsValue latest p.current_positions)).sum
    let dh : HoldingsSnapshot :=
      { values := fun s =>
          if s ∈ symbol_list then holdingsValue latest p.current_positions s else 0
        cash := p.cash
        commission := p.commission
        total := p.cash + market_value
        datetime := latest_datetime }
    { p with all_positions := p.all_positions ++ [dp],
             all_holdings := p.all_holdings ++ [dh] }
  | _ => p

/-- `Portfolio.update_fill(event)`: guarded on `'FILL'`;
`fill_dir = 1 if direction == 'BUY' else -1`,
`position[symbol] += fill_dir * quantity`,
`cash -= fill_dir * fill_cost + commission`, `commission += commission`. -/
def update_fill (p : PortfolioState) (event : Event) : PortfolioState :=
  match event with
  | .fill _ symbol _ quantity direction fill_cost commission =>
    let fill_dir : ℤ := if direction = .BUY then 1 else -1
    { p with
      current_positions := fun s =>
        if s = symbol then p.current_positions s + fill_dir * quantity
        else p.current_positions s
      cash := p.cash - ((fill_dir : ℚ) * fill_cost + commission)
      commission := p.commission + commission }
  | _ => p

/-- Python's `int()` applied to a rational: truncation toward zero (equal to
`⌊·⌋` on nonnegative arguments, the only ones the engine produces). -/
def pyInt (q : ℚ) : ℤ := if 0 ≤ q then ⌊q⌋ else -⌊-q⌋

/-- `Portfolio._generate_order(signal)`: `quantity = int(100 * strength)`;
LONG → BUY, SHORT → SELL with that quantity; EXIT with a nonzero current
position → the opposite side with `abs(current_quantity)`; EXIT flat →
no order. -/
def generate_order (p : PortfolioState) (signal : Event) : Option Event :=
  match signal with
  | .signal symbol _ signal_type strength =>
    let quantity := pyInt (100 * strength)
    let current_quantity := p.current_positions symbol
    match signal_type with
    | .LONG => some (.order symbol "MKT" quantity .BUY)
    | .SHORT => some (.order symbol "MKT" quantity .SELL)
    | .EXIT =>
      if current_quantity ≠ 0 then
        some (.order symbol "MKT" |current_quantity|
          (if 0 < current_quantity then .SELL else .BUY))
      else none
  | _ => none

/-- `Portfolio.on_signal(event)`: guarded on `'SIGNAL'`; puts the order
produced by `_generate_order`, if any, on the queue. The portfolio state is
not modified (the source only reads `current_positions`). -/
def on_signal (p : PortfolioState) (event : Event) : List Event :=
  match event with
  | .signal _ _ _ _ =>
    match generate_order p event with
    | some o => [o]
    | none => []
  | _ => []

/-! ## Execution (execution.py, `SimulatedExecutionHandler`) -/

/-- `execute_order(event)`: guarded on `'ORDER'`; looks up the latest bar
for the order's symbol — `none` models the `KeyError` (`NoMarketData`)
branch — and otherwise emits exactly one `FillEvent` with
`fill_cost = Close × quantity`, venue `'ARCA'` and flat commission `1.0`. -/
def execute_order (latest : List (String × Bar)) (event : Event) :
    Option (List Event) :=
  match event with
  | .order symbol _ quantity direction =>
    match alookup latest symbol with
    | none => none
    | some b =>
      some [.fill b.name symbol "ARCA" quantity direction
              (b.close * (quantity : ℚ)) 1]
  | _ => some []

/-! ## Bar feed (data_handler.py, `DataHandler`) -/

/-- `_get_new_bar`: iterate the reference symbol's rows (the first symbol of
the configured list) and join each timestamp across all symbols by label
lookup (`symbol_data[symbol].loc[dt]`, `KeyError → None`), keeping only the
symbols that have data (`update_bars` filters the `None`s). Each element of
the result is one step's `latest_symbol_data`. (Python would raise at
construction if the reference symbol itself were absent from `symbol_data`;
the embedding totalises that unreachable case with the empty series.) -/
def joinBars (symbol_data : List (String × List Bar)) (symbol_list : List String) :
    List (List (String × Bar)) :=
  match symbol_list with
  | [] => []
  | s0 :: _ =>
    ((alookup symbol_data s0).getD []).map (fun b =>
      symbol_list.filterMap (fun s =>
        (((alookup symbol_data s).getD []).find? (fun r => r.name = b.name)).map
          (fun r => (s, r))))

/-! ## Driver loop (backtest.py) -/

/-- The engine's configuration surface: the symbol pair (`symbol_list` is
`[s1, s2]`, as in backtest.py), the lookback window, the initial capital and
the cointegration p-value oracle. -/
structure EngineParams where
  s1 : String
  s2 : String
  lookback : ℕ
  initial_capital : ℚ
  pvalue : List ℚ → List ℚ → ℚ

/-- The configured symbol list `[s1, s2]`. -/
def symbolList (P : EngineParams) : List String := [P.s1, P.s2]

/-- The full mutable state of one run: the bar feed's
`latest_symbol_data`, the strategy's invested flag, the portfolio, and a
ghost counter of processed `MarketEvent`s (used only to state theorems). -/
structure EngineState where
  latest : List (String × Bar)
  invested : Bool
  port : PortfolioState
  market_count : ℕ

/-- The state right after construction, before the first bar. -/
def initState (P : EngineParams) : EngineState :=
  { latest := [], invested := false,
    port := initialPortfolio P.initial_capital, market_count := 0 }

/-- One dispatch of the driver loop (backtest.py lines 36-45): `MARKET` →
strategy then portfolio `update_timeindex`; `SIGNAL` → `on_signal`;
`ORDER` → `execute_order` (`none` models the fatal `KeyError`); `FILL` →
`update_fill`. Returns the new state and the events the handler put on the
queue, in order. -/
def processEvent (P : EngineParams) (symbol_data : List (String × List Bar))
    (st : EngineState) (e : Event) : Option (EngineState × List Event) :=
  match e with
  | .market =>
    let r := calculate_signals P.pvalue (P.s1, P.s2) P.lookback symbol_data
      st.latest st.invested e
    let port2 := update_timeindex (symbolList P) st.latest st.port e
    some ({ st with
              invested := r.1
              port := port2
              market_count := st.market_count + 1 }, r.2)
  | .signal _ _ _ _ => some (st, on_signal st.port e)
  | .order _ _ _ _ => (execute_order st.latest e).map (fun fills => (st, fills))
  | .fill _ _ _ _ _ _ _ => some ({ st with port := update_fill st.port e }, [])

/-- Weight of one event, chosen so that every handler strictly decreases the
total queue weight: a `MarketEvent` enqueues at most two signals, a signal
at most one order, an order exactly one fill, a fill nothing. -/
def eventWeight : Event → ℕ
  | .market => 7
  | .signal _ _ _ _ => 3
  | .order _ _ _ _ => 2
  | .fill _ _ _ _ _ _ _ => 1

/-- Total weight of a queue. -/
def queueWeight (q : List Event) : ℕ := (q.map eventWeight).sum

/-- Result of draining the queue: `ok` on normal exhaustion,
`no_market_data` when `execute_order` hits its `KeyError` branch, and
`out_of_fuel` — an artifact of the fuel-indexed recursion, proved
unreachable whenever the fuel is at least the queue weight
(`drainF_ne_out_of_fuel`). -/
inductive RunOutcome
  | out_of_fuel
  | no_market_data
  | ok (st : EngineState)

/-- The inner `while True: events.get(block=False)` drain of backtest.py:
pop the head of the FIFO queue, dispatch it, append whatever the handler
enqueued, and repeat until the queue is empty. The recursion is indexed by
fuel; `drainQueue` supplies `queueWeight q`, which always suffices. -/
def drainF (P : EngineParams) (symbol_data : List (String × List Bar)) :
    ℕ → List Event → EngineState → RunOutcome
  | _, [], st => .ok st
  | 0, _ :: _, _ => .out_of_fuel
  | fuel + 1, e :: q, st =>
    match processEvent P symbol_data st e with
    | none => .no_market_data
    | some (st2, out) => drainF P symbol_data fuel (q ++ out) st2

/-- Drain the queue to exhaustion. -/
def drainQueue (P : EngineParams) (symbol_data : List (String × List Bar))
    (q : List Event) (st : EngineState) : RunOutcome :=
  drainF P symbol_data (queueWeight q) q st

/-- The outer loop of backtest.py: for each joined bar, `update_bars`
replaces `latest_symbol_data` wholesale and puts one `MarketEvent`, then the
channel is drained to exhaustion before the next bar; the loop ends on
`StopIteration`. `none` propagates a fatal drain failure. -/
def runBars (P : EngineParams) (symbol_data : List (String × List Bar)) :
    List (List (String × Bar)) → EngineState → Option EngineState
  | [], st => some st
  | row :: rows, st =>
    match drainQueue P symbol_data [.market] { st with latest := row } with
    | .ok st2 => runBars P symbol_data rows st2
    | _ => none

/-- A complete backtest run over pre-loaded per-symbol series. -/
def runEngine (P : EngineParams) (symbol_data : List (String × List Bar)) :
    Option EngineState :=
  runBars P symbol_data (joinBars symbol_data (symbolList P)) (initState P)

/-- The reference symbol's full series (the series whose rows drive the
outer loop). -/
def refSeries (P : EngineParams) (symbol_data : List (String × List Bar)) :
    List Bar :=
  (alookup symbol_data P.s1).getD []

/-! ## Derived predicates used by the theorems -/

/-- The per-fill cash outflow: `fill_dir * fill_cost + commission`,
positive sign for BUY, negative for SELL; `0` for non-fill events. -/
def fillCashDelta : Event → ℚ
  | .fill _ _ _ _ direction fill_cost commission =>
    (if direction = .BUY then 1 else -1) * fill_cost + commission
  | _ => 0

/-- An entry signal: a `SignalEvent` with direction LONG or SHORT. -/
def isEntrySignal : Event → Bool
  | .signal _ _ .LONG _ => true
  | .signal _ _ .SHORT _ => true
  | _ => false

/-- An exit signal: a `SignalEvent` with direction EXIT. -/
def isExitSignal : Event → Bool
  | .signal _ _ .EXIT _ => true
  | _ => false

/-- An event is `good` for a given `latest_symbol_data` view when any symbol
it will make the engine look up is present: the queue invariant behind the
unreachability of the `NoMarketData` branch. -/
def goodEvent (latest : List (String × Bar)) : Event → Prop
  | .signal s _ _ _ => (alookup latest s).isSome
  | .order s _ _ _ => (alookup latest s).isSome
  | _ => True

/-- Internal consistency of a stored holdings snapshot: its total equals its
cash plus the sum of its recorded per-symbol market values. -/
def snapTotalOK (symbol_list : List String) (h : HoldingsSnapshot) : Prop :=
  h.total = h.cash + (symbol_list.map h.values).sum

/-! ## Concrete scenario data used by counterexamples and witnesses -/

/-- A p-value oracle that always reports cointegration (p = 0 < 0.05). -/
def pvZero : List ℚ → List ℚ → ℚ := fun _ _ => 0

/-- Five-bar history putting the spread z-score at exactly +2 on bar 5:
closes A = [0,0,0,0,5], B = [0,0,0,0,0], spread [0,0,0,0,5] has mean 1,
population variance 4 and current deviation 4, so z = 4/2 = 2. -/
def dataB5 : List (String × List Bar) :=
  [("A", [⟨1, 0⟩, ⟨2, 0⟩, ⟨3, 0⟩, ⟨4, 0⟩, ⟨5, 5⟩]),
   ("B", [⟨1, 0⟩, ⟨2, 0⟩, ⟨3, 0⟩, ⟨4, 0⟩, ⟨5, 0⟩])]

/-- The `latest_symbol_data` view on bar 5 of `dataB5`. -/
def latestB5 : List (String × Bar) := [("A", ⟨5, 5⟩), ("B", ⟨5, 0⟩)]

/-- The lookback-5 window of symbol A in `dataB5` at bar 5. -/
def winA5 : List Bar := [⟨1, 0⟩, ⟨2, 0⟩, ⟨3, 0⟩, ⟨4, 0⟩, ⟨5, 5⟩]

/-- The lookback-5 window of symbol B in `dataB5` at bar 5. -/
def winB5 : List Bar := [⟨1, 0⟩, ⟨2, 0⟩, ⟨3, 0⟩, ⟨4, 0⟩, ⟨5, 0⟩]

/-- Six-bar history putting the z-score strictly above 2 on bar 6:
closes A = [0,0,0,0,0,6], B constant 0; the spread has mean 1, variance 5
and current deviation 5, so z = 5/√5 = √5 > 2. -/
def dataStrict6 : List (String × List Bar) :=
  [("A", [⟨1, 0⟩, ⟨2, 0⟩, ⟨3, 0⟩, ⟨4, 0⟩, ⟨5, 0⟩, ⟨6, 6⟩]),
   ("B", [⟨1, 0⟩, ⟨2, 0⟩, ⟨3, 0⟩, ⟨4, 0⟩, ⟨5, 0⟩, ⟨6, 0⟩])]

/-- The `latest_symbol_data` view on bar 6 of `dataStrict6`. -/
def latestStrict6 : List (String × Bar) := [("A", ⟨6, 6⟩), ("B", ⟨6, 0⟩)]

/-- Engine parameters for the concrete runs: pair (A, B), lookback 6,
initial capital 1000, always-cointegrated oracle. -/
def paramsAB : EngineParams :=
  { s1 := "A", s2 := "B", lookback := 6, initial_capital := 1000, pvalue := pvZero }

/-- Feed for the missing-bar scenario: symbol A has seven bars (closes
0,0,0,0,0,6,6), symbol B has only six bars, all at close 10 — B's bar is
missing at timestamp 7. With `paramsAB` the strategy enters at bar 6
(z = √5 > 2): SELL 100 A at 6, BUY 100 B at 10, leaving cash 598 and
positions A = -100, B = +100 before bar 7. -/
def dataMissingB : List (String × List Bar) :=
  [("A", [⟨1, 0⟩, ⟨2, 0⟩, ⟨3, 0⟩, ⟨4, 0⟩, ⟨5, 0⟩, ⟨6, 6⟩, ⟨7, 6⟩]),
   ("B", [⟨1, 10⟩, ⟨2, 10⟩, ⟨3, 10⟩, ⟨4, 10⟩, ⟨5, 10⟩, ⟨6, 10⟩])]

/-- A one-bar feed for the snapshot-count scenario. -/
def dataOneBar : List (String × List Bar) :=
  [("A", [⟨1, 1⟩]), ("B", [⟨1, 1⟩])]

/-- Parameters for the one-bar feed: lookback 100 (never filled). -/
def paramsOneBar : EngineParams :=
  { s1 := "A", s2 := "B", lookback := 100, initial_capital := 100,
    pvalue := fun _ _ => 1 }

/-- Two bars of constant closes (A at 3, B at 1): the spread is constant,
so its population variance is zero. -/
def dataConst2 : List (String × List Bar) :=
  [("A", [⟨1, 3⟩, ⟨2, 3⟩]), ("B", [⟨1, 1⟩, ⟨2, 1⟩])]

/-- The `latest_symbol_data` view on bar 2 of `dataConst2`. -/
def latestConst2 : List (String × Bar) := [("A", ⟨2, 3⟩), ("B", ⟨2, 1⟩)]

/-- The positions snapshot appended by `update_timeindex` on a
`MarketEvent`: a copy of the current positions stamped with the reference
symbol's latest timestamp. -/
def dpSnap (symbol_list : List String) (latest : List (String × Bar))
    (p : PortfolioState) : PositionsSnapshot :=
  { positions := p.current_positions
    datetime := (symbol_list.head?.bind (alookup latest)).map Bar.name }

/-- The holdings snapshot appended by `update_timeindex` on a
`MarketEvent`. -/
def dhSnap (symbol_list : List String) (latest : List (String × Bar))
    (p : PortfolioState) : HoldingsSnapshot :=
  { values := fun s =>
      if s ∈ symbol_list then holdingsValue latest p.current_positions s else 0
    cash := p.cash
    commission := p.commission
    total := p.cash + (symbol_list.map (holdingsValue latest p.current_positions)).sum
    datetime := (symbol_list.head?.bind (alookup latest)).map Bar.name }

end Backtest

attribute [local semireducible] Rat.add Rat.mul Rat.inv Rat.sub

namespace Backtest

/-! ## Helper lemmas -/

theorem zAbove_var_zero (d : ℚ) : ¬zAbove d 0 := fun h => h.1 rfl

theorem zBelow_var_zero (d : ℚ) : ¬zBelow d 0 := fun h => h.1 rfl

theorem zSmall_var_zero (d : ℚ) : ¬zSmall d 0 := fun h => h.1 rfl

theorem tradeSignals_var_zero (s1 s2 : String) (d1 d2 : ℕ) (invested : Bool)
    (d : ℚ) : tradeSignals s1 s2 d1 d2 invested d 0 = (invested, []) := by
  unfold tradeSignals
  simp [zAbove_var_zero d, zBelow_var_zero d, zSmall_var_zero d]

theorem mem_zipWith_sub {l1 l2 : List ℚ} {x : ℚ}
    (hx : x ∈ List.zipWith (fun a b => a - b) l1 l2) :
    ∃ a ∈ l1, ∃ b ∈ l2, x = a - b := by
  induction l1 generalizing l2 with
  | nil => simp at hx
  | cons a l1 ih =>
    cases l2 with
    | nil => simp at hx
    | cons b l2 =>
      simp only [List.zipWith_cons_cons, List.mem_cons] at hx
      rcases hx with h | h
      · exact ⟨a, by simp, b, by simp, h⟩
      · rcases ih h with ⟨a2, ha2, b2, hb2, hx2⟩
        exact ⟨a2, by simp [ha2], b2, by simp [hb2], hx2⟩

theorem meanQ_const {l : List ℚ} {c : ℚ} (h : ∀ x ∈ l, x = c) (hne : l ≠ []) :
    meanQ l = c := by
  unfold meanQ
  have hsum : l.sum = l.length • c := List.sum_eq_card_nsmul l c h
  have hlen : (l.length : ℚ) ≠ 0 :=
    Nat.cast_ne_zero.mpr (fun h0 => hne (List.length_eq_zero.mp h0))
  rw [hsum, nsmul_eq_mul, mul_div_cancel_left₀ _ hlen]

theorem pvarQ_const {l : List ℚ} {c : ℚ} (h : ∀ x ∈ l, x = c) : pvarQ l = 0 := by
  rcases eq_or_ne l [] with rfl | hne
  · simp [pvarQ]
  · unfold pvarQ
    have hmean := meanQ_const h hne
    have hz : ∀ y ∈ l.map (fun x => (x - meanQ l) ^ 2), y = 0 := by
      intro y hy
      rcases List.mem_map.mp hy with ⟨x, hx, rfl⟩
      rw [h x hx, hmean, sub_self]
      ring
    rw [List.sum_eq_zero hz, zero_div]

theorem getRecentData_lookup {symbol_data : List (String × List Bar)}
    {latest : List (String × Bar)} {lookback : ℕ} {s : String} {df : List Bar}
    (h : getRecentData symbol_data latest lookback s = some df) :
    ∃ b, alookup latest s = some b := by
  unfold getRecentData at h
  split at h
  · rename_i b sd heq1 heq2
    exact ⟨b, heq1⟩
  · exact absurd h (by simp)

theorem getRecentData_mem {symbol_data : List (String × List Bar)}
    {latest : List (String × Bar)} {lookback : ℕ} {s : String} {df : List Bar}
    (h : getRecentData symbol_data latest lookback s = some df) :
    ∃ sd, alookup symbol_data s = some sd ∧ ∀ b ∈ df, b ∈ sd := by
  unfold getRecentData at h
  split at h
  · rename_i b0 sd heq1 heq2
    refine ⟨sd, heq2, ?_⟩
    split at h
    · rename_i i hi
      injection h with h
      intro b hbmem
      rw [← h] at hbmem
      exact List.drop_subset _ _ (List.take_subset _ _ hbmem)
    · exact absurd h (by simp)
  · exact absurd h (by simp)

/-- Exhaustive shape analysis of one `calculate_signals` call: either it is
a no-op, or both pair symbols are present in `latest_symbol_data` and the
call performs exactly one of the three transitions, emitting that rule's
two signals. -/
theorem calculate_signals_shape (pvalue : List ℚ → List ℚ → ℚ)
    (pair : String × String) (lookback : ℕ)
    (symbol_data : List (String × List Bar)) (latest : List (String × Bar))
    (invested : Bool) (e : Event) (r : Bool × List Event)
    (h : calculate_signals pvalue pair lookback symbol_data latest invested e = r) :
    r = (invested, [])
    ∨ ∃ b1 b2, alookup latest pair.1 = some b1 ∧ alookup latest pair.2 = some b2
      ∧ ((invested = false
           ∧ r = (true, [.signal pair.1 b1.name .SHORT 1, .signal pair.2 b2.name .LONG 1]))
        ∨ (invested = false
           ∧ r = (true, [.signal pair.1 b1.name .LONG 1, .signal pair.2 b2.name .SHORT 1]))
        ∨ (invested = true
           ∧ r = (false, [.signal pair.1 b1.name .EXIT 1, .signal pair.2 b2.name .EXIT 1]))) := by
  unfold calculate_signals at h
  split at h
  · split at h
    · rename_i df1 df2 h1 h2
      obtain ⟨b1, hb1⟩ := getRecentData_lookup h1
      obtain ⟨b2, hb2⟩ := getRecentData_lookup h2
      have hdt1 : dtOf latest pair.1 = b1.name := by simp [dtOf, hb1]
      have hdt2 : dtOf latest pair.2 = b2.name := by simp [dtOf, hb2]
      split at h
      · split at h
        · unfold tradeSignals at h
          rw [hdt1, hdt2] at h
          split at h
          · rename_i hc
            exact Or.inr ⟨b1, b2, hb1, hb2, Or.inl ⟨hc.1, h.symm⟩⟩
          · split at h
            · rename_i hc
              exact Or.inr ⟨b1, b2, hb1, hb2, Or.inr (Or.inl ⟨hc.1, h.symm⟩)⟩
            · split at h
              · rename_i hc
                exact Or.inr ⟨b1, b2, hb1, hb2, Or.inr (Or.inr ⟨hc.1, h.symm⟩)⟩
              · exact Or.inl h.symm
        · exact Or.inl h.symm
      · exact Or.inl h.symm
    · exact Or.inl h.symm
  · exact Or.inl h.symm

/-! ## C3 -/

/-- C3: replaying any finite event sequence through `update_fill` leaves
`cash = initial_cash - Σ (signed(fill_cost) + commission)` over the fills,
where the sign is + for BUY and - for SELL (non-fill events contribute
nothing and change nothing), and the only other handler that touches the
portfolio (`update_timeindex`) never changes cash. -/
theorem C3_cash_ledger :
    (∀ (p : PortfolioState) (evs : List Event),
      (evs.foldl update_fill p).cash = p.cash - (evs.map fillCashDelta).sum)
    ∧ (∀ (symbol_list : List String) (latest : List (String × Bar))
        (p : PortfolioState) (e : Event),
        (update_timeindex symbol_list latest p e).cash = p.cash) := by
  constructor
  · intro p evs
    induction evs generalizing p with
    | nil => simp
    | cons e evs ih =>
      have hstep : (update_fill p e).cash = p.cash - fillCashDelta e := by
        cases e with
        | fill ti sym ex q dir fc cm =>
          cases dir <;> simp [update_fill, fillCashDelta]
        | market => simp [update_fill, fillCashDelta]
        | signal _ _ _ _ => simp [update_fill, fillCashDelta]
        | order _ _ _ _ => simp [update_fill, fillCashDelta]
      rw [List.foldl_cons, ih, hstep, List.map_cons, List.sum_cons]
      ring
  · intro sl latest p e
    cases e <;> simp [update_timeindex]

/-! ## C10 -/

/-- C10: every handler is guarded by the event's type tag — invoked on an
event of any other kind, `calculate_signals`, `update_timeindex`,
`on_signal`, `execute_order` and `update_fill` leave their component state
unchanged and enqueue no events. -/
theorem C10_type_guard (pvalue : List ℚ → List ℚ → ℚ) (pair : String × String)
    (lookback : ℕ) (symbol_data : List (String × List Bar))
    (latest : List (String × Bar)) (invested : Bool)
    (symbol_list : List String) (p : PortfolioState) (e : Event) :
    (eventType e ≠ "MARKET" →
      calculate_signals pvalue pair lookback symbol_data latest invested e
          = (invested, [])
        ∧ update_timeindex symbol_list latest p e = p)
    ∧ (eventType e ≠ "SIGNAL" → on_signal p e = [])
    ∧ (eventType e ≠ "ORDER" → execute_order latest e = some [])
    ∧ (eventType e ≠ "FILL" → update_fill p e = p) := by
  cases e with
  | market => exact ⟨fun h => absurd rfl h, fun _ => rfl, fun _ => rfl, fun _ => rfl⟩
  | signal _ _ _ _ =>
    exact ⟨fun _ => ⟨rfl, rfl⟩, fun h => absurd rfl h, fun _ => rfl, fun _ => rfl⟩
  | order _ _ _ _ =>
    exact ⟨fun _ => ⟨rfl, rfl⟩, fun _ => rfl, fun h => absurd rfl h, fun _ => rfl⟩
  | fill _ _ _ _ _ _ _ =>
    exact ⟨fun _ => ⟨rfl, rfl⟩, fun _ => rfl, fun _ => rfl, fun h => absurd rfl h⟩

/-- Witness for C10: the fill handler and the signal handler ignore a
`MarketEvent`. -/
theorem C10_type_guard_witness :
    update_fill (initialPortfolio 100000) .market = initialPortfolio 100000
      ∧ on_signal (initialPortfolio 100000) .market = [] :=
  ⟨(C10_type_guard pvZero ("A", "B") 1 [] [] false ["A", "B"]
      (initialPortfolio 100000) .market).2.2.2 (by decide),
   (C10_type_guard pvZero ("A", "B") 1 [] [] false ["A", "B"]
      (initialPortfolio 100000) .market).2.1 (by decide)⟩

/-! ## C7 -/

/-- Counterexample for C7 as stated: the signal strength `1/200` lies in
`(0, 1]`, yet the single order emitted has quantity `int(100 × 1/200) = 0`,
which is not a positive integer. -/
theorem C7_counterexample :
    (0 : ℚ) < 1 / 200 ∧ (1 / 200 : ℚ) ≤ 1
      ∧ on_signal (initialPortfolio 100000) (.signal "A" 1 .LONG (1 / 200))
          = [.order "A" "MKT" 0 .BUY]
      ∧ ¬(0 : ℤ) < 0 := by decide

/-- C7 (amended): a LONG/SHORT signal with strength in `(0, 1]` makes
`on_signal` emit exactly one market order of quantity `⌊100 × strength⌋`
(BUY for LONG, SELL for SHORT); the quantity is nonnegative, positive
exactly when `strength ≥ 1/100` (it is `0` for smaller strengths), and a
LONG signal of strength `1/2` yields quantity 50, side BUY. -/
theorem C7_long_short_sizing (p : PortfolioState) (sym : String) (dt : ℕ)
    (strength : ℚ) (hpos : 0 < strength) (hle : strength ≤ 1) :
    on_signal p (.signal sym dt .LONG strength)
        = [.order sym "MKT" (pyInt (100 * strength)) .BUY]
      ∧ on_signal p (.signal sym dt .SHORT strength)
        = [.order sym "MKT" (pyInt (100 * strength)) .SELL]
      ∧ 0 ≤ pyInt (100 * strength)
      ∧ (1 / 100 ≤ strength → 0 < pyInt (100 * strength))
      ∧ (strength = 1 / 2 → pyInt (100 * strength) = 50) := by
  have h100 : (0 : ℚ) ≤ 100 * strength := by positivity
  have hfloor : pyInt (100 * strength) = ⌊(100 * strength : ℚ)⌋ := by
    simp [pyInt, h100]
  refine ⟨rfl, rfl, ?_, ?_, ?_⟩
  · rw [hfloor]
    exact Int.floor_nonneg.mpr h100
  · intro hs
    rw [hfloor]
    have : (1 : ℚ) ≤ 100 * strength := by linarith
    have h1 : (1 : ℤ) ≤ ⌊(100 * strength : ℚ)⌋ := by
      rw [Int.le_floor]
      exact_mod_cast this
    omega
  · intro hs
    subst hs
    decide

/-- Witness for C7: a LONG signal of strength 1/2 yields one BUY order of
quantity 50. -/
theorem C7_long_short_sizing_witness :
    on_signal (initialPortfolio 100000) (.signal "A" 1 .LONG (1 / 2))
      = [.order "A" "MKT" 50 .BUY] := by
  have h := C7_long_short_sizing (initialPortfolio 100000) "A" 1 (1 / 2)
    (by norm_num) (by norm_num)
  rw [h.1, h.2.2.2.2 rfl]

/-! ## C8 -/

/-- C8: an EXIT signal emits no order when the current position is zero,
and otherwise exactly one market order for the absolute current position,
SELL when the position is positive and BUY when it is negative. -/
theorem C8_exit_order (p : PortfolioState) (sym : String) (dt : ℕ)
    (strength : ℚ) :
    (p.current_positions sym = 0 →
      on_signal p (.signal sym dt .EXIT strength) = [])
    ∧ (0 < p.current_positions sym →
      on_signal p (.signal sym dt .EXIT strength)
        = [.order sym "MKT" |p.current_positions sym| .SELL])
    ∧ (p.current_positions sym < 0 →
      on_signal p (.signal sym dt .EXIT strength)
        = [.order sym "MKT" |p.current_positions sym| .BUY]) := by
  refine ⟨fun h => ?_, fun h => ?_, fun h => ?_⟩
  · simp [on_signal, generate_order, h]
  · simp [on_signal, generate_order, h.ne', h]
  · simp [on_signal, generate_order, h.ne, h, not_lt.mpr h.le,
      not_lt.mpr (le_of_lt h)]

/-- Witness for C8: with position +5 in A, an EXIT signal emits SELL 5;
with a fresh (flat) portfolio it emits nothing. -/
theorem C8_exit_order_witness :
    on_signal (update_fill (initialPortfolio 100000)
        (.fill 1 "A" "ARCA" 5 .BUY 50 1)) (.signal "A" 1 .EXIT 1)
      = [.order "A" "MKT" 5 .SELL]
    ∧ on_signal (initialPortfolio 100000) (.signal "A" 1 .EXIT 1) = [] := by
  constructor
  · have h := (C8_exit_order (update_fill (initialPortfolio 100000)
      (.fill 1 "A" "ARCA" 5 .BUY 50 1)) "A" 1 1).2.1 (by decide)
    rw [h]
    decide
  · exact (C8_exit_order (initialPortfolio 100000) "A" 1 1).1 rfl

/-! ## C6 -/

/-- C6: the signal generator never emits an entry (LONG/SHORT) signal while
INVESTED and never an EXIT signal while NOT_INVESTED, and at most one
transition rule fires per bar: the emitted list is either empty or exactly
the two signals of one rule, with the invested flag flipped. -/
theorem C6_invested_guard (pvalue : List ℚ → List ℚ → ℚ)
    (pair : String × String) (lookback : ℕ)
    (symbol_data : List (String × List Bar)) (latest : List (String × Bar))
    (invested : Bool) (e : Event) :
    (invested = true →
      ∀ x ∈ (calculate_signals pvalue pair lookback symbol_data latest invested e).2,
        isEntrySignal x = false)
    ∧ (invested = false →
      ∀ x ∈ (calculate_signals pvalue pair lookback symbol_data latest invested e).2,
        isExitSignal x = false)
    ∧ ((calculate_signals pvalue pair lookback symbol_data latest invested e).2 = []
      ∨ ((calculate_signals pvalue pair lookback symbol_data latest invested e).2.length = 2
        ∧ (calculate_signals pvalue pair lookback symbol_data latest invested e).1
            = !invested)) := by
  rcases calculate_signals_shape pvalue pair lookback symbol_data latest invested e _ rfl
    with h | ⟨b1, b2, hb1, hb2, hcase⟩
  · rw [h]
    exact ⟨fun _ => by simp, fun _ => by simp, Or.inl rfl⟩
  · rcases hcase with ⟨hinv, h⟩ | ⟨hinv, h⟩ | ⟨hinv, h⟩ <;> rw [h, hinv] <;>
      simp [isEntrySignal, isExitSignal]

/-- Witness for C6: on data whose z-score would trigger an entry, an
already-INVESTED generator emits no entry signal (here: nothing at all). -/
theorem C6_invested_guard_witness :
    ((calculate_signals pvZero ("A", "B") 6 dataStrict6 latestStrict6 true .market).2 = []
      ∨ ((calculate_signals pvZero ("A", "B") 6 dataStrict6 latestStrict6 true .market).2.length = 2
        ∧ (calculate_signals pvZero ("A", "B") 6 dataStrict6 latestStrict6 true .market).1 = !true))
    ∧ (Event.signal "A" 6 .SHORT 1
        ∈ (calculate_signals pvZero ("A", "B") 6 dataStrict6 latestStrict6 true .market).2 →
      isEntrySignal (Event.signal "A" 6 .SHORT 1) = false) :=
  ⟨(C6_invested_guard pvZero ("A", "B") 6 dataStrict6 latestStrict6 true .market).2.2,
   fun hm => (C6_invested_guard pvZero ("A", "B") 6 dataStrict6 latestStrict6 true .market).1
     rfl _ hm⟩

/-! ## C5 -/

/-- Counterexample for C5 as stated: on `dataB5` at bar 5 every entry
precondition holds with the z-score exactly at the +2 boundary
(`d = 4 > 0`, `v = 4`, `d² = 4·v`, i.e. `z = d/√v = 2`), yet the generator
emits nothing and stays NOT_INVESTED — the boundary does NOT trigger entry
because the code compares with strict `>`. -/
theorem C5_counterexample :
    getRecentData dataB5 latestB5 5 "A" = some winA5
    ∧ getRecentData dataB5 latestB5 5 "B" = some winB5
    ∧ (5 ≤ winA5.length ∧ 5 ≤ winB5.length)
    ∧ pvZero (closes winA5) (closes winB5) < 1 / 20
    ∧ 0 < spreadD winA5 winB5
    ∧ spreadD winA5 winB5 = 4
    ∧ pvarQ (spreadOf winA5 winB5) = 4
    ∧ (spreadD winA5 winB5) ^ 2 = 4 * pvarQ (spreadOf winA5 winB5)
    ∧ calculate_signals pvZero ("A", "B") 5 dataB5 latestB5 false .market
        = (false, []) := by decide

/-- C5 (amended): with full windows, cointegration accepted and the state
NOT_INVESTED, a z-score strictly above 2 emits SHORT(symbol1) then
LONG(symbol2) and a z-score strictly below -2 emits LONG(symbol1) then
SHORT(symbol2), each flipping the state to INVESTED; the boundary values
z = ±2 do not trigger (see the counterexample). The strict comparisons are
phrased exactly: `zAbove d v ↔ z > 2` and `zBelow d v ↔ z < -2` over the
reals for the code's `d = current_spread - mean` and `v = variance`. -/
theorem C5_strict_entry (pvalue : List ℚ → List ℚ → ℚ) (s1 s2 : String)
    (lookback : ℕ) (symbol_data : List (String × List Bar))
    (latest : List (String × Bar)) (df1 df2 : List Bar) (b1 b2 : Bar)
    (hb1 : alookup latest s1 = some b1) (hb2 : alookup latest s2 = some b2)
    (h1 : getRecentData symbol_data latest lookback s1 = some df1)
    (h2 : getRecentData symbol_data latest lookback s2 = some df2)
    (hl1 : lookback ≤ df1.length) (hl2 : lookback ≤ df2.length)
    (hpv : pvalue (closes df1) (closes df2) < 1 / 20) :
    (zAbove (spreadD df1 df2) (pvarQ (spreadOf df1 df2)) →
      calculate_signals pvalue (s1, s2) lookback symbol_data latest false .market
        = (true, [.signal s1 b1.name .SHORT 1, .signal s2 b2.name .LONG 1]))
    ∧ (zBelow (spreadD df1 df2) (pvarQ (spreadOf df1 df2)) →
      calculate_signals pvalue (s1, s2) lookback symbol_data latest false .market
        = (true, [.signal s1 b1.name .LONG 1, .signal s2 b2.name .SHORT 1])) := by
  have hdt1 : dtOf latest s1 = b1.name := by simp [dtOf, hb1]
  have hdt2 : dtOf latest s2 = b2.name := by simp [dtOf, hb2]
  constructor
  · intro hz
    simp only [calculate_signals, h1, h2]
    rw [if_pos ⟨hl1, hl2⟩, if_pos hpv, hdt1, hdt2]
    unfold tradeSignals
    rw [if_pos ⟨rfl, hz⟩]
  · intro hz
    have hnotAbove : ¬zAbove (spreadD df1 df2) (pvarQ (spreadOf df1 df2)) :=
      fun hcon => absurd hcon.2.1 (not_lt.mpr (le_of_lt hz.2.1))
    simp only [calculate_signals, h1, h2]
    rw [if_pos ⟨hl1, hl2⟩, if_pos hpv, hdt1, hdt2]
    unfold tradeSignals
    rw [if_neg (fun hcon => hnotAbove hcon.2), if_pos ⟨rfl, hz⟩]

/-- Witness for C5 (amended): on `dataStrict6` at bar 6 the z-score is
√5 > 2 strictly, and the generator enters: SHORT A then LONG B. -/
theorem C5_strict_entry_witness :
    calculate_signals pvZero ("A", "B") 6 dataStrict6 latestStrict6 false .market
      = (true, [.signal "A" 6 .SHORT 1, .signal "B" 6 .LONG 1]) := by
  have h := C5_strict_entry pvZero "A" "B" 6 dataStrict6 latestStrict6
    [⟨1, 0⟩, ⟨2, 0⟩, ⟨3, 0⟩, ⟨4, 0⟩, ⟨5, 0⟩, ⟨6, 6⟩]
    [⟨1, 0⟩, ⟨2, 0⟩, ⟨3, 0⟩, ⟨4, 0⟩, ⟨5, 0⟩, ⟨6, 0⟩]
    ⟨6, 6⟩ ⟨6, 0⟩ (by decide) (by decide) (by decide) (by decide)
    (by decide) (by decide) (by decide)
  exact h.1 (by decide)

/-! ## Driver-loop infrastructure lemmas -/

theorem update_timeindex_market (symbol_list : List String)
    (latest : List (String × Bar)) (p : PortfolioState) :
    update_timeindex symbol_list latest p .market
      = { p with all_positions := p.all_positions ++ [dpSnap symbol_list latest p]
                 all_holdings := p.all_holdings ++ [dhSnap symbol_list latest p] } := rfl

theorem dhSnap_totalOK (symbol_list : List String) (latest : List (String × Bar))
    (p : PortfolioState) : snapTotalOK symbol_list (dhSnap symbol_list latest p) := by
  have hmap : symbol_list.map (dhSnap symbol_list latest p).values
      = symbol_list.map (holdingsValue latest p.current_positions) :=
    List.map_congr_left (fun s hs => by simp [dhSnap, hs])
  unfold snapTotalOK
  rw [hmap]
  rfl

theorem on_signal_shape (p : PortfolioState) (s : String) (dt : ℕ)
    (ty : SignalType) (str : ℚ) :
    on_signal p (.signal s dt ty str) = []
    ∨ ∃ q side, on_signal p (.signal s dt ty str) = [.order s "MKT" q side] := by
  cases ty with
  | LONG => exact Or.inr ⟨_, _, rfl⟩
  | SHORT => exact Or.inr ⟨_, _, rfl⟩
  | EXIT =>
    by_cases h : p.current_positions s ≠ 0
    · refine Or.inr ⟨|p.current_positions s|,
        if 0 < p.current_positions s then Side.SELL else Side.BUY, ?_⟩
      simp [on_signal, generate_order, h]
    · simp only [on_signal, generate_order, if_neg h]
      left
      trivial

theorem processEvent_nonmarket (P : EngineParams)
    (symbol_data : List (String × List Bar)) {st : EngineState} {e : Event}
    (hgood : goodEvent st.latest e) (hnm : e ≠ .market) :
    ∃ st2 out, processEvent P symbol_data st e = some (st2, out)
      ∧ st2.latest = st.latest
      ∧ st2.market_count = st.market_count
      ∧ st2.port.all_holdings = st.port.all_holdings
      ∧ st2.port.all_positions = st.port.all_positions
      ∧ queueWeight out < eventWeight e
      ∧ ∀ x ∈ out, goodEvent st.latest x ∧ x ≠ .market := by
  cases e with
  | market => exact absurd rfl hnm
  | signal s dt ty str =>
    refine ⟨st, on_signal st.port (.signal s dt ty str), rfl, rfl, rfl, rfl, rfl, ?_, ?_⟩
    · rcases on_signal_shape st.port s dt ty str with h | ⟨q, side, h⟩ <;>
        simp [h, queueWeight, eventWeight]
    · rcases on_signal_shape st.port s dt ty str with h | ⟨q, side, h⟩ <;> rw [h]
      · simp
      · intro x hx
        simp only [List.mem_singleton] at hx
        subst hx
        exact ⟨hgood, by simp⟩
  | order s ot q dir =>
    obtain ⟨b, hb⟩ := Option.isSome_iff_exists.mp hgood
    refine ⟨st, [.fill b.name s "ARCA" q dir (b.close * (q : ℚ)) 1], ?_, rfl, rfl,
      rfl, rfl, ?_, ?_⟩
    · simp [processEvent, execute_order, hb]
    · simp [queueWeight, eventWeight]
    · intro x hx
      simp only [List.mem_singleton] at hx
      subst hx
      exact ⟨trivial, by simp⟩
  | fill ti s ex q dir fc cm =>
    refine ⟨_, [], rfl, rfl, rfl, rfl, rfl, ?_, by simp⟩
    simp [queueWeight, eventWeight]

theorem eventWeight_pos (e : Event) : 1 ≤ eventWeight e := by
  cases e <;> simp [eventWeight]

theorem drainF_nonmarket (P : EngineParams)
    (symbol_data : List (String × List Bar)) :
    ∀ (fuel : ℕ) (q : List Event) (st : EngineState),
      queueWeight q ≤ fuel →
      (∀ x ∈ q, goodEvent st.latest x ∧ x ≠ Event.market) →
      ∃ st2, drainF P symbol_data fuel q st = .ok st2
        ∧ st2.latest = st.latest
        ∧ st2.market_count = st.market_count
        ∧ st2.port.all_holdings = st.port.all_holdings
        ∧ st2.port.all_positions = st.port.all_positions := by
  intro fuel
  induction fuel with
  | zero =>
    intro q st hw hg
    cases q with
    | nil => exact ⟨st, rfl, rfl, rfl, rfl, rfl⟩
    | cons e q =>
      exfalso
      have h1 := eventWeight_pos e
      have h2 : eventWeight e + (q.map eventWeight).sum ≤ 0 := by
        simpa [queueWeight] using hw
      omega
  | succ fuel ih =>
    intro q st hw hg
    cases q with
    | nil => exact ⟨st, rfl, rfl, rfl, rfl, rfl⟩
    | cons e q =>
      obtain ⟨hgood, hnm⟩ := hg e (by simp)
      obtain ⟨st2, out, hpe, hlat, hmc, hah, hap, hwlt, hout⟩ :=
        processEvent_nonmarket P symbol_data hgood hnm
      have hstep : drainF P symbol_data (fuel + 1) (e :: q) st
          = drainF P symbol_data fuel (q ++ out) st2 := by
        simp [drainF, hpe]
      have hw2 : queueWeight (q ++ out) ≤ fuel := by
        have h1 : queueWeight (e :: q) = eventWeight e + queueWeight q := by
          simp [queueWeight]
        have h2 : queueWeight (q ++ out) = queueWeight q + queueWeight out := by
          simp [queueWeight]
        omega
      have hg2 : ∀ x ∈ q ++ out, goodEvent st2.latest x ∧ x ≠ Event.market := by
        rw [hlat]
        intro x hx
        rcases List.mem_append.mp hx with h | h
        · exact hg x (by simp [h])
        · exact hout x h
      obtain ⟨st3, hdr, hl3, hm3, hh3, hp3⟩ := ih (q ++ out) st2 hw2 hg2
      exact ⟨st3, hstep.trans hdr, hl3.trans hlat, by rw [hm3, hmc],
        by rw [hh3, hah], by rw [hp3, hap]⟩

theorem drainF_succ_some {P : EngineParams}
    {symbol_data : List (String × List Bar)} {fuel : ℕ} {e : Event}
    {q : List Event} {st st2 : EngineState} {out : List Event}
    (h : processEvent P symbol_data st e = some (st2, out)) :
    drainF P symbol_data (fuel + 1) (e :: q) st
      = drainF P symbol_data fuel (q ++ out) st2 := by
  simp [drainF, h]

theorem drainQueue_market (P : EngineParams)
    (symbol_data : List (String × List Bar)) (st : EngineState) :
    ∃ st2, drainQueue P symbol_data [.market] st = .ok st2
      ∧ st2.latest = st.latest
      ∧ st2.market_count = st.market_count + 1
      ∧ st2.port.all_holdings
          = st.port.all_holdings ++ [dhSnap (symbolList P) st.latest st.port]
      ∧ st2.port.all_positions
          = st.port.all_positions ++ [dpSnap (symbolList P) st.latest st.port] := by
  have hpe : processEvent P symbol_data st .market
      = some ({ st with
                  invested := (calculate_signals P.pvalue (P.s1, P.s2) P.lookback
                    symbol_data st.latest st.invested .market).1
                  port := update_timeindex (symbolList P) st.latest st.port .market
                  market_count := st.market_count + 1 },
              (calculate_signals P.pvalue (P.s1, P.s2) P.lookback symbol_data
                st.latest st.invested .market).2) := rfl
  have hfirst : drainQueue P symbol_data [.market] st
      = drainF P symbol_data 6
          ([] ++ (calculate_signals P.pvalue (P.s1, P.s2) P.lookback symbol_data
            st.latest st.invested .market).2)
          { st with
              invested := (calculate_signals P.pvalue (P.s1, P.s2) P.lookback
                symbol_data st.latest st.invested .market).1
              port := update_timeindex (symbolList P) st.latest st.port .market
              market_count := st.market_count + 1 } := by
    show drainF P symbol_data (6 + 1) [.market] st = _
    exact drainF_succ_some hpe
  have hshape := calculate_signals_shape P.pvalue (P.s1, P.s2) P.lookback
    symbol_data st.latest st.invested .market _ rfl
  have hwg : queueWeight ([] ++ (calculate_signals P.pvalue (P.s1, P.s2)
        P.lookback symbol_data st.latest st.invested .market).2) ≤ 6
      ∧ ∀ x ∈ [] ++ (calculate_signals P.pvalue (P.s1, P.s2) P.lookback
          symbol_data st.latest st.invested .market).2,
        goodEvent st.latest x ∧ x ≠ Event.market := by
    rcases hshape with h | ⟨b1, b2, hb1, hb2, hcase⟩
    · rw [h]
      exact ⟨by simp [queueWeight], by simp⟩
    · rcases hcase with ⟨_, h⟩ | ⟨_, h⟩ | ⟨_, h⟩ <;> rw [h] <;>
        refine ⟨by simp [queueWeight, eventWeight], ?_⟩ <;>
        · intro x hx
          simp only [List.nil_append, List.mem_cons, List.mem_singleton,
            List.not_mem_nil, or_false] at hx
          rcases hx with rfl | rfl
          · exact ⟨by simp [goodEvent, hb1], by simp⟩
          · exact ⟨by simp [goodEvent, hb2], by simp⟩
  obtain ⟨st3, hdr, hl3, hm3, hh3, hp3⟩ := drainF_nonmarket P symbol_data 6
    ([] ++ (calculate_signals P.pvalue (P.s1, P.s2) P.lookback symbol_data
      st.latest st.invested .market).2)
    { st with
        invested := (calculate_signals P.pvalue (P.s1, P.s2) P.lookback
          symbol_data st.latest st.invested .market).1
        port := update_timeindex (symbolList P) st.latest st.port .market
        market_count := st.market_count + 1 }
    hwg.1 hwg.2
  refine ⟨st3, hfirst.trans hdr, hl3.trans rfl, hm3.trans rfl, ?_, ?_⟩
  · exact hh3.trans rfl
  · exact hp3.trans rfl

theorem runBars_effects (P : EngineParams)
    (symbol_data : List (String × List Bar)) :
    ∀ (rows : List (List (String × Bar))) (st : EngineState),
      ∃ st2, runBars P symbol_data rows st = some st2
        ∧ st2.market_count = st.market_count + rows.length
        ∧ st2.port.all_holdings.map (fun h => h.datetime)
            = st.port.all_holdings.map (fun h => h.datetime)
              ++ rows.map (fun row => (alookup row P.s1).map Bar.name)
        ∧ st2.port.all_positions.map (fun q => q.datetime)
            = st.port.all_positions.map (fun q => q.datetime)
              ++ rows.map (fun row => (alookup row P.s1).map Bar.name)
        ∧ (∀ h ∈ st2.port.all_holdings,
            h ∈ st.port.all_holdings ∨ snapTotalOK (symbolList P) h) := by
  intro rows
  induction rows with
  | nil =>
    intro st
    exact ⟨st, rfl, by simp, by simp, by simp, fun h hh => Or.inl hh⟩
  | cons row rows ih =>
    intro st
    obtain ⟨stA, hdr, hlat, hmc, hah, hap⟩ :=
      drainQueue_market P symbol_data { st with latest := row }
    obtain ⟨st2, hrun, hmc2, hah2, hap2, hok2⟩ := ih stA
    refine ⟨st2, ?_, ?_, ?_, ?_, ?_⟩
    · simp only [runBars, hdr, hrun]
    · rw [hmc2, hmc]
      simp only [List.length_cons]
      omega
    · rw [hah2, hah]
      simp [dhSnap, symbolList, List.map_append]
    · rw [hap2, hap]
      simp [dpSnap, symbolList, List.map_append]
    · intro h hh
      rcases hok2 h hh with hin | hok
      · rw [hah] at hin
        rcases List.mem_append.mp hin with h1 | h1
        · exact Or.inl h1
        · simp only [List.mem_singleton] at h1
          subst h1
          exact Or.inr (dhSnap_totalOK _ _ _)
      · exact Or.inr hok

theorem joinBars_rowDt (P : EngineParams)
    (symbol_data : List (String × List Bar)) :
    (joinBars symbol_data (symbolList P)).map
        (fun row => (alookup row P.s1).map Bar.name)
      = (refSeries P symbol_data).map (fun b => some b.name) := by
  unfold joinBars symbolList refSeries
  simp only [List.map_map]
  apply List.map_congr_left
  intro b hb
  have hfind : ∃ r, ((alookup symbol_data P.s1).getD []).find?
      (fun r => r.name = b.name) = some r := by
    apply Option.isSome_iff_exists.mp
    rw [List.find?_isSome]
    exact ⟨b, hb, by simp⟩
  obtain ⟨r, hr⟩ := hfind
  have hrname : r.name = b.name := by
    have := List.find?_some hr
    simpa using this
  simp only [Function.comp, List.filterMap_cons, hr, Option.map_some']
  simp [alookup, hrname]

/-! ## C9 -/

/-- C9: the driver loop preserves the queue invariant that every order's
symbol is present in `latest_symbol_data`, so the `NoMarketData` lookup
failure is unreachable (`runEngine` always completes normally, for every
configuration and every feed), and a processed order whose symbol has a
latest bar produces exactly one FillEvent with
`fill_cost = latest close × quantity` and commission 1. -/
theorem C9_no_market_data_unreachable :
    (∀ (P : EngineParams) (symbol_data : List (String × List Bar)),
      (runEngine P symbol_data).isSome = true)
    ∧ (∀ (latest : List (String × Bar)) (s ot : String) (q : ℤ) (dir : Side)
        (b : Bar), alookup latest s = some b →
        execute_order latest (.order s ot q dir)
          = some [.fill b.name s "ARCA" q dir (b.close * (q : ℚ)) 1]) := by
  constructor
  · intro P symbol_data
    obtain ⟨st2, hrun, _⟩ :=
      runBars_effects P symbol_data (joinBars symbol_data (symbolList P)) (initState P)
    unfold runEngine
    rw [hrun]
    rfl
  · intro latest s ot q dir b hb
    simp [execute_order, hb]

/-- Witness for C9: the missing-bar feed runs to completion, and a concrete
order against a concrete latest view fills at close × quantity. -/
theorem C9_no_market_data_unreachable_witness :
    (runEngine paramsAB dataMissingB).isSome = true
    ∧ execute_order [("A", ⟨3, 7⟩)] (.order "A" "MKT" 2 .BUY)
        = some [.fill 3 "A" "ARCA" 2 .BUY 14 1] := by
  constructor
  · exact C9_no_market_data_unreachable.1 paramsAB dataMissingB
  · have h := C9_no_market_data_unreachable.2 [("A", ⟨3, 7⟩)] "A" "MKT" 2 .BUY
      ⟨3, 7⟩ (by decide)
    rw [h]
    decide

/-! ## C2 -/

/-- Counterexample for C2 as stated: a one-bar feed processes exactly one
MarketEvent, yet both snapshot sequences have two entries — the extra one
is the initial snapshot appended at construction, so the sequences do NOT
contain exactly one entry per processed MarketEvent. -/
theorem C2_counterexample :
    ((runEngine paramsOneBar dataOneBar).map (fun st =>
        (st.port.all_holdings.length, st.port.all_positions.length,
          st.market_count)))
      = some (2, 2, 1)
    ∧ (2 : ℕ) ≠ 1 := by decide

/-- C2 (amended): the Positions and Holdings snapshot sequences always have
equal length, namely one initial entry from construction (timestamp-less)
plus exactly one entry per processed MarketEvent, the per-event entries
carrying exactly the reference series' timestamps in feed order; when the
feed's timestamps are non-decreasing, so are the snapshot timestamps. -/
theorem C2_snapshot_sequences (P : EngineParams)
    (symbol_data : List (String × List Bar)) :
    ((runEngine P symbol_data).map (fun st =>
        st.port.all_holdings.map (fun h => h.datetime))
      = some (none :: (refSeries P symbol_data).map (fun b => some b.name)))
    ∧ ((runEngine P symbol_data).map (fun st =>
        st.port.all_positions.map (fun q => q.datetime))
      = some (none :: (refSeries P symbol_data).map (fun b => some b.name)))
    ∧ ((runEngine P symbol_data).map (fun st =>
        (st.port.all_holdings.length, st.port.all_positions.length,
          st.market_count))
      = some ((refSeries P symbol_data).length + 1,
          (refSeries P symbol_data).length + 1,
          (refSeries P symbol_data).length))
    ∧ (List.Chain' (· ≤ ·) ((refSeries P symbol_data).map Bar.name) →
      List.Chain' (· ≤ ·)
        (((runEngine P symbol_data).map (fun st =>
          st.port.all_holdings.map (fun h => h.datetime.getD 0))).getD [])) := by
  obtain ⟨st2, hrun, hmc, hah, hap, _⟩ :=
    runBars_effects P symbol_data (joinBars symbol_data (symbolList P)) (initState P)
  have hrunE : runEngine P symbol_data = some st2 := hrun
  have hinitH : (initState P).port.all_holdings.map (fun h => h.datetime)
      = [none] := rfl
  have hinitP : (initState P).port.all_positions.map (fun q => q.datetime)
      = [none] := rfl
  have hrows := joinBars_rowDt P symbol_data
  have hdtH : st2.port.all_holdings.map (fun h => h.datetime)
      = none :: (refSeries P symbol_data).map (fun b => some b.name) := by
    rw [hah, hinitH, hrows]
    rfl
  have hdtP : st2.port.all_positions.map (fun q => q.datetime)
      = none :: (refSeries P symbol_data).map (fun b => some b.name) := by
    rw [hap, hinitP, hrows]
    rfl
  have hlenH : st2.port.all_holdings.length = (refSeries P symbol_data).length + 1 := by
    have := congrArg List.length hdtH
    simpa using this
  have hlenP : st2.port.all_positions.length = (refSeries P symbol_data).length + 1 := by
    have := congrArg List.length hdtP
    simpa using this
  have hcount : st2.market_count = (refSeries P symbol_data).length := by
    rw [hmc]
    have hlenrows : (joinBars symbol_data (symbolList P)).length
        = (refSeries P symbol_data).length := by
      have := congrArg List.length (joinBars_rowDt P symbol_data)
      simpa using this
    simp [initState, hlenrows]
  refine ⟨?_, ?_, ?_, ?_⟩
  · rw [hrunE, Option.map_some', hdtH]
  · rw [hrunE, Option.map_some', hdtP]
  · rw [hrunE, Option.map_some', hlenH, hlenP, hcount]
  · intro hsorted
    rw [hrunE]
    have hgetD : st2.port.all_holdings.map (fun h => h.datetime.getD 0)
        = 0 :: (refSeries P symbol_data).map Bar.name := by
      have h1 : st2.port.all_holdings.map (fun h => h.datetime.getD 0)
          = (st2.port.all_holdings.map (fun h => h.datetime)).map
              (fun o => o.getD 0) := by
        rw [List.map_map]
        rfl
      rw [h1, hdtH]
      simp [List.map_map]
    simp only [Option.map_some', Option.getD_some, hgetD]
    rw [List.chain'_cons']
    constructor
    · intro y hy
      exact Nat.zero_le y
    · exact hsorted

/-- Witness for C2 (amended): on the one-bar feed the snapshot timestamp
lists are `[none, some 1]` and they are non-decreasing. -/
theorem C2_snapshot_sequences_witness :
    ((runEngine paramsOneBar dataOneBar).map (fun st =>
        st.port.all_holdings.map (fun h => h.datetime))
      = some [none, some 1])
    ∧ List.Chain' (· ≤ ·)
        (((runEngine paramsOneBar dataOneBar).map (fun st =>
          st.port.all_holdings.map (fun h => h.datetime.getD 0))).getD []) := by
  constructor
  · have h := (C2_snapshot_sequences paramsOneBar dataOneBar).1
    rw [h]
    decide
  · refine (C2_snapshot_sequences paramsOneBar dataOneBar).2.2.2 ?_
    have hnames : (refSeries paramsOneBar dataOneBar).map Bar.name = [1] := by decide
    rw [hnames]
    exact List.chain'_singleton 1

/-! ## C1 -/

/-- Counterexample for C1 as stated: on `dataMissingB`, symbol B has no bar
at timestamp 7 while its position is +100 and its last known close is 10
(B's series is constant at 10); the claim's formula
`cash + Σ position × last_known_close = 598 + (-100)·6 + 100·10 = 998`,
but the recorded snapshot total is `-2` — `update_bars` replaces
`latest_symbol_data` wholesale, so a symbol with no bar at the current
timestamp is valued at zero, not at its last known close. -/
theorem C1_counterexample :
    ((runEngine paramsAB dataMissingB).bind
        (fun st => st.port.all_holdings.getLast?)).map
        (fun h => (h.total, h.cash, h.values "A", h.values "B", h.datetime))
      = some (-2, 598, -600, 0, some 7)
    ∧ ((runEngine paramsAB dataMissingB).bind
        (fun st => st.port.all_positions.getLast?)).map
        (fun q => (q.positions "A", q.positions "B"))
      = some (-100, 100)
    ∧ ((runEngine paramsAB dataMissingB).map (fun st => st.port.cash)) = some 598
    ∧ (-2 : ℚ) ≠ 598 + (-100) * 6 + 100 * 10 := by decide

/-- C1 (amended): every Holdings snapshot of every run satisfies
`total = cash + Σ over configured symbols of the recorded per-symbol
value`, where the per-symbol value recorded by `update_timeindex` is
`position × current close` for a symbol with a bar at the current timestamp
and `0` for a symbol without one (missing symbols are NOT valued at their
last known close). -/
theorem C1_snapshot_totals :
    (∀ (P : EngineParams) (symbol_data : List (String × List Bar))
        (st : EngineState),
      runEngine P symbol_data = some st →
      st.port.all_holdings ≠ []
        ∧ ∀ h ∈ st.port.all_holdings, snapTotalOK (symbolList P) h)
    ∧ (∀ (symbol_list : List String) (latest : List (String × Bar))
        (p : PortfolioState),
        (update_timeindex symbol_list latest p .market).all_holdings
          = p.all_holdings ++ [dhSnap symbol_list latest p])
    ∧ (∀ (latest : List (String × Bar)) (pos : String → ℤ) (s : String)
        (b : Bar), alookup latest s = some b →
        holdingsValue latest pos s = (pos s : ℚ) * b.close)
    ∧ (∀ (latest : List (String × Bar)) (pos : String → ℤ) (s : String),
        alookup latest s = none → holdingsValue latest pos s = 0) := by
  refine ⟨?_, ?_, ?_, ?_⟩
  · intro P symbol_data st hrun
    obtain ⟨st2, hrun2, hmc, hah, hap, hok⟩ :=
      runBars_effects P symbol_data (joinBars symbol_data (symbolList P))
        (initState P)
    unfold runEngine at hrun
    rw [hrun2] at hrun
    injection hrun with hst
    subst hst
    constructor
    · intro hempty
      rw [hempty] at hah
      simp at hah
      exact absurd hah.1 (by simp [initState, initialPortfolio])
    · intro h hh
      rcases hok h hh with hin | hok2
      · simp only [initState, initialPortfolio, List.mem_singleton] at hin
        subst hin
        unfold snapTotalOK
        simp
      · exact hok2
  · intro symbol_list latest p
    rfl
  · intro latest pos s b hb
    simp [holdingsValue, hb]
  · intro latest pos s hb
    simp [holdingsValue, hb]

/-- Witness for C1 (amended): the final snapshot of the one-bar run has
`total - cash - Σ values = 0`, and a symbol absent from the latest view
contributes zero market value. -/
theorem C1_snapshot_totals_witness :
    ((runEngine paramsOneBar dataOneBar).bind
        (fun st => st.port.all_holdings.getLast?)).map
        (fun h => h.total - h.cash - ((symbolList paramsOneBar).map h.values).sum)
      = some 0
    ∧ holdingsValue [] (fun _ => 0) "A" = 0 := by
  constructor
  · rcases hE : runEngine paramsOneBar dataOneBar with _ | st
    · have hsome : (runEngine paramsOneBar dataOneBar).isSome = true := by decide
      rw [hE] at hsome
      simp at hsome
    · obtain ⟨hne, hall⟩ := C1_snapshot_totals.1 paramsOneBar dataOneBar st hE
      obtain ⟨h, hh⟩ := Option.isSome_iff_exists.mp (List.getLast?_isSome.mpr hne)
      have hok := hall h (List.mem_of_getLast?_eq_some hh)
      unfold snapTotalOK at hok
      simp only [Option.some_bind, hh, Option.map_some']
      rw [hok]
      ring_nf
  · exact C1_snapshot_totals.2.2.2 [] (fun _ => 0) "A" rfl

/-! ## C4 -/

theorem holdingsValue_zero {latest : List (String × Bar)} {pos : String → ℤ}
    {s : String} (h : pos s = 0) : holdingsValue latest pos s = 0 := by
  unfold holdingsValue
  cases alookup latest s <;> simp [h]

/-- On per-symbol-constant close data the strategy is a no-op on every
`MarketEvent`, whatever the latest view, the invested flag and the p-value
oracle say: either a window is short, or the p-value gate fails, or the
spread is constant so its variance is zero and the float z-score is NaN. -/
theorem calculate_signals_const {pvalue : List ℚ → List ℚ → ℚ}
    {s1 s2 : String} {lookback : ℕ} {symbol_data : List (String × List Bar)}
    {c1 c2 : ℚ}
    (hc1 : ∀ b ∈ (alookup symbol_data s1).getD [], b.close = c1)
    (hc2 : ∀ b ∈ (alookup symbol_data s2).getD [], b.close = c2)
    (latest : List (String × Bar)) (invested : Bool) :
    calculate_signals pvalue (s1, s2) lookback symbol_data latest invested
      .market = (invested, []) := by
  cases h1 : getRecentData symbol_data latest lookback s1 with
  | none => simp [calculate_signals, h1]
  | some df1 =>
    cases h2 : getRecentData symbol_data latest lookback s2 with
    | none => simp [calculate_signals, h1, h2]
    | some df2 =>
      obtain ⟨sd1, hsd1, hmem1⟩ := getRecentData_mem h1
      obtain ⟨sd2, hsd2, hmem2⟩ := getRecentData_mem h2
      have hcl1 : ∀ x ∈ closes df1, x = c1 := by
        intro x hx
        obtain ⟨b, hb, rfl⟩ := List.mem_map.mp hx
        exact hc1 b (by rw [hsd1]; exact hmem1 b hb)
      have hcl2 : ∀ x ∈ closes df2, x = c2 := by
        intro x hx
        obtain ⟨b, hb, rfl⟩ := List.mem_map.mp hx
        exact hc2 b (by rw [hsd2]; exact hmem2 b hb)
      have hsub : ∀ x ∈ spreadOf df1 df2, x = c1 - c2 := by
        intro x hx
        obtain ⟨a, ha, b, hb, rfl⟩ := mem_zipWith_sub hx
        rw [hcl1 a ha, hcl2 b hb]
      have hvar : pvarQ (spreadOf df1 df2) = 0 := pvarQ_const hsub
      by_cases hlen : lookback ≤ df1.length ∧ lookback ≤ df2.length
      · by_cases hpv : pvalue (closes df1) (closes df2) < 1 / 20
        · simp only [calculate_signals, h1, h2]
          rw [if_pos hlen, if_pos hpv, hvar]
          exact tradeSignals_var_zero _ _ _ _ _ _
        · simp only [calculate_signals, h1, h2]
          rw [if_pos hlen, if_neg hpv]
      · simp only [calculate_signals, h1, h2]
        rw [if_neg hlen]

theorem runBars_const {P : EngineParams} {symbol_data : List (String × List Bar)}
    {c1 c2 : ℚ}
    (hc1 : ∀ b ∈ (alookup symbol_data P.s1).getD [], b.close = c1)
    (hc2 : ∀ b ∈ (alookup symbol_data P.s2).getD [], b.close = c2) :
    ∀ (rows : List (List (String × Bar))) (st : EngineState),
      st.invested = false →
      (∀ s, st.port.current_positions s = 0) →
      st.port.cash = P.initial_capital →
      st.port.all_holdings ≠ [] →
      (∀ h ∈ st.port.all_holdings,
        h.total = P.initial_capital ∧ h.cash = P.initial_capital) →
      ∃ st2, runBars P symbol_data rows st = some st2
        ∧ st2.invested = false
        ∧ (∀ s, st2.port.current_positions s = 0)
        ∧ st2.port.cash = P.initial_capital
        ∧ st2.port.all_holdings ≠ []
        ∧ ∀ h ∈ st2.port.all_holdings,
            h.total = P.initial_capital ∧ h.cash = P.initial_capital := by
  intro rows
  induction rows with
  | nil =>
    intro st hinv hpos hcash hne hall
    exact ⟨st, rfl, hinv, hpos, hcash, hne, hall⟩
  | cons row rows ih =>
    intro st hinv hpos hcash hne hall
    have hcalc : calculate_signals P.pvalue (P.s1, P.s2) P.lookback symbol_data
        row st.invested .market = (st.invested, []) :=
      calculate_signals_const hc1 hc2 row st.invested
    have hpe : processEvent P symbol_data { st with latest := row } .market
        = some ({ st with
                    latest := row
                    invested := st.invested
                    port := update_timeindex (symbolList P) row st.port .market
                    market_count := st.market_count + 1 }, []) := by
      simp only [processEvent, hcalc]
    have hstep : drainQueue P symbol_data [.market] { st with latest := row }
        = .ok { st with
                  latest := row
                  invested := st.invested
                  port := update_timeindex (symbolList P) row st.port .market
                  market_count := st.market_count + 1 } := by
      show drainF P symbol_data (6 + 1) [.market] { st with latest := row } = _
      rw [drainF_succ_some hpe]
      rfl
    have hrun1 : runBars P symbol_data (row :: rows) st
        = runBars P symbol_data rows
            { st with
                latest := row
                invested := st.invested
                port := update_timeindex (symbolList P) row st.port .market
                market_count := st.market_count + 1 } := by
      simp only [runBars, hstep]
    have hmv : ((symbolList P).map
        (holdingsValue row st.port.current_positions)).sum = 0 := by
      apply List.sum_eq_zero
      intro x hx
      obtain ⟨s, _, rfl⟩ := List.mem_map.mp hx
      exact holdingsValue_zero (hpos s)
    have hdh : (dhSnap (symbolList P) row st.port).total = P.initial_capital
        ∧ (dhSnap (symbolList P) row st.port).cash = P.initial_capital := by
      constructor
      · show st.port.cash + ((symbolList P).map
          (holdingsValue row st.port.current_positions)).sum = P.initial_capital
        rw [hmv, hcash, add_zero]
      · exact hcash
    have hne2 : st.port.all_holdings ++ [dhSnap (symbolList P) row st.port]
        ≠ [] := by simp
    have hall2 : ∀ h ∈ st.port.all_holdings ++ [dhSnap (symbolList P) row st.port],
        h.total = P.initial_capital ∧ h.cash = P.initial_capital := by
      intro h hh
      rcases List.mem_append.mp hh with h1 | h1
      · exact hall h h1
      · simp only [List.mem_singleton] at h1
        subst h1
        exact hdh
    obtain ⟨st2, hrun2, h2⟩ := ih
      { latest := row
        invested := st.invested
        port := update_timeindex (symbolList P) row st.port .market
        market_count := st.market_count + 1 }
      hinv hpos hcash hne2 hall2
    exact ⟨st2, hrun1.trans hrun2, h2⟩

/-- C4: with full windows, an accepted cointegration p-value and zero
spread variance, the generator emits no signals and keeps its state, and no
division-by-zero failure occurs (the computation is total; the float code
computes z = 0.0/0.0 = NaN, whose comparisons are all false, embedded as
the `v ≠ 0` guard conjuncts); consequently a run over two symbols with
constant closes keeps the equity curve flat at the initial capital. -/
theorem C4_degenerate_spread :
    (∀ (pvalue : List ℚ → List ℚ → ℚ) (pair : String × String) (lookback : ℕ)
        (symbol_data : List (String × List Bar)) (latest : List (String × Bar))
        (invested : Bool) (df1 df2 : List Bar),
      getRecentData symbol_data latest lookback pair.1 = some df1 →
      getRecentData symbol_data latest lookback pair.2 = some df2 →
      lookback ≤ df1.length → lookback ≤ df2.length →
      pvalue (closes df1) (closes df2) < 1 / 20 →
      pvarQ (spreadOf df1 df2) = 0 →
      calculate_signals pvalue pair lookback symbol_data latest invested
        .market = (invested, []))
    ∧ (∀ (P : EngineParams) (symbol_data : List (String × List Bar)) (c1 c2 : ℚ),
      (∀ b ∈ (alookup symbol_data P.s1).getD [], b.close = c1) →
      (∀ b ∈ (alookup symbol_data P.s2).getD [], b.close = c2) →
      ∀ st, runEngine P symbol_data = some st →
        st.invested = false
        ∧ st.port.cash = P.initial_capital
        ∧ st.port.all_holdings ≠ []
        ∧ ∀ h ∈ st.port.all_holdings,
            h.total = P.initial_capital ∧ h.cash = P.initial_capital) := by
  constructor
  · intro pvalue pair lookback symbol_data latest invested df1 df2 h1 h2 hl1 hl2
      hpv hvar
    simp only [calculate_signals, h1, h2]
    rw [if_pos ⟨hl1, hl2⟩, if_pos hpv, hvar]
    exact tradeSignals_var_zero _ _ _ _ _ _
  · intro P symbol_data c1 c2 hc1 hc2 st hrun
    obtain ⟨st2, hrun2, hinv2, hpos2, hcash2, hne2, hall2⟩ :=
      runBars_const hc1 hc2 (joinBars symbol_data (symbolList P)) (initState P)
        rfl (fun _ => rfl) rfl (by simp [initState, initialPortfolio])
        (by
          intro h hh
          simp only [initState, initialPortfolio, List.mem_singleton] at hh
          subst hh
          exact ⟨rfl, rfl⟩)
    unfold runEngine at hrun
    rw [hrun2] at hrun
    injection hrun with hst
    subst hst
    exact ⟨hinv2, hcash2, hne2, hall2⟩

/-- Witness for C4: a degenerate two-bar constant window makes the
generator a no-op, and the one-bar constant-close run ends flat: invested
is false and the last snapshot has total = cash = 100. -/
theorem C4_degenerate_spread_witness :
    calculate_signals pvZero ("A", "B") 2 dataConst2 latestConst2 false .market
        = (false, [])
    ∧ ((runEngine paramsOneBar dataOneBar).map (fun st => st.invested)
        = some false)
    ∧ ((runEngine paramsOneBar dataOneBar).bind
        (fun st => st.port.all_holdings.getLast?)).map
        (fun h => (h.total, h.cash)) = some (100, 100) := by
  refine ⟨?_, ?_, ?_⟩
  · exact C4_degenerate_spread.1 pvZero ("A", "B") 2 dataConst2 latestConst2
      false [⟨1, 3⟩, ⟨2, 3⟩] [⟨1, 1⟩, ⟨2, 1⟩] (by decide) (by decide)
      (by decide) (by decide) (by decide) (by norm_num [spreadOf, closes, pvarQ, meanQ])
  · rcases hE : runEngine paramsOneBar dataOneBar with _ | st
    · have hsome : (runEngine paramsOneBar dataOneBar).isSome = true := by decide
      rw [hE] at hsome
      simp at hsome
    · have h := (C4_degenerate_spread.2 paramsOneBar dataOneBar 1 1
        (by decide) (by decide) st hE).1
      simp [h]
  · rcases hE : runEngine paramsOneBar dataOneBar with _ | st
    · have hsome : (runEngine paramsOneBar dataOneBar).isSome = true := by decide
      rw [hE] at hsome
      simp at hsome
    · obtain ⟨_, _, hne, hall⟩ := C4_degenerate_spread.2 paramsOneBar dataOneBar
        1 1 (by decide) (by decide) st hE
      obtain ⟨h, hh⟩ := Option.isSome_iff_exists.mp (List.getLast?_isSome.mpr hne)
      obtain ⟨ht, hc⟩ := hall h (List.mem_of_getLast?_eq_some hh)
      simp only [Option.some_bind, hh, Option.map_some']
      rw [ht, hc]
      rfl

end Backtest
